import Mathlib

/-
Formal model of the lunasvg high-precision filter pipeline
(source/lunasvg/filterelement.cpp, filterelement.h).

The C++ code evaluates every filter primitive on 32-bit float pixels in
linear premultiplied space.  Here the float arithmetic is modelled by exact
arithmetic in a linear ordered field K: the formula-level claims are stated
at K = Rat (decidable, so witnesses evaluate), and the claims that involve
the sRGB transfer curves are stated at K = Real, where the curves and their
gamma branch (rpow 2.4) are exact.
-/

set_option linter.unusedVariables false

namespace LunaSVG

/-- Model of std::clamp(v, lo, hi): lo if v < lo, hi if hi < v, else v. -/
def clampVal {K : Type} [LinearOrder K] (v lo hi : K) : K :=
  if v < lo then lo else if hi < v then hi else v

/-- Model of std::round on a float followed by int conversion:
    round half away from zero. -/
def roundHalfAway {K : Type} [LinearOrderedField K] [FloorRing K] (q : K) : ℤ :=
  if 0 ≤ q then ⌊q + 1/2⌋ else -⌊-q + 1/2⌋

/-- struct FilterPixel { float r, g, b, a; }  (filterelement.h). -/
structure FilterPixel (K : Type) where
  r : K
  g : K
  b : K
  a : K
  deriving DecidableEq, Repr

/-- class FilterImage: width, height and a row-major pixel plane indexed by
    the flat index y * width + x.  FilterImage(w, h) zero-fills the plane. -/
structure FilterImage (K : Type) where
  width : ℕ
  height : ℕ
  pix : ℕ → FilterPixel K

/-- FilterImage::FilterImage(int w, int h): all pixels are {0,0,0,0}. -/
def FilterImage.new (K : Type) [Zero K] (w h : ℕ) : FilterImage K :=
  { width := w, height := h, pix := fun _ => ⟨0, 0, 0, 0⟩ }

section Field

variable {K : Type} [LinearOrderedField K] [FloorRing K]

/-- class FilterContext (filterelement.h): the named-result table, the two
    seeded images and the last produced result.  std::map lookup is
    modelled by a function String to Option. -/
structure FilterContext (K : Type) where
  sourceGraphic : FilterImage K
  sourceAlpha : FilterImage K
  results : String → Option (FilterImage K)
  lastResult : FilterImage K

/-- FilterContext::getInput: empty name resolves to lastResult, otherwise
    a table lookup that can fail (nullptr). -/
def FilterContext.getInput (ctx : FilterContext K) (inName : String) :
    Option (FilterImage K) :=
  if inName = "" then some ctx.lastResult else ctx.results inName

/-- FilterContext::addResult: lastResult is always set; the table is
    updated only for a non-empty result name (operator[] replaces). -/
def FilterContext.addResult (ctx : FilterContext K) (resName : String)
    (image : FilterImage K) : FilterContext K :=
  { ctx with
    lastResult := image
    results :=
      if resName = "" then ctx.results
      else fun n => if n = resName then some image else ctx.results n }

/-- FilterContext::FilterContext: seeds SourceGraphic with the converted
    source, SourceAlpha with rgb zeroed and alpha preserved, and sets
    lastResult to the source graphic. -/
def initFilterContext (src : FilterImage K) : FilterContext K :=
  let alpha : FilterImage K :=
    { width := src.width, height := src.height
      pix := fun i => ⟨0, 0, 0, (src.pix i).a⟩ }
  { sourceGraphic := src
    sourceAlpha := alpha
    results := fun n =>
      if n = "SourceGraphic" then some src
      else if n = "SourceAlpha" then some alpha
      else none
    lastResult := src }

/-- Running accumulator of the boxBlur inner loop (filterelement.cpp,
    boxBlur): value of val after the j-th output has been produced, as a
    closed form.  len is the strip length, r the radius.  Natural
    subtraction gives the max with 0 used for the trailing window edge. -/
def blurVal (s : ℕ → K) (len r j : ℕ) : K :=
  ((r : K) + 1) * s 0
    + (Finset.range r).sum (fun t => s (min t (len - 1)))
    + (Finset.range j).sum
        (fun u => s (min (u + 1 + r) (len - 1)) - s (u + 1 - (r + 1)))

/-- One boxBlur pass (filterelement.cpp, boxBlur): a sliding-window mean of
    width 2r+1 over each row (horizontal) or column (vertical), writing a
    fresh image of the same dimensions.  The callers only invoke it with
    r strictly positive; r = 0 is the identity (the source returns early
    and the guarded copy is skipped). -/
def boxBlurPass (img : FilterImage K) (r : ℕ) (horizontal : Bool) :
    FilterImage K :=
  if r = 0 then img else
  let w := img.width
  let h := img.height
  let len := if horizontal then w else h
  let iarr : K := 1 / ((r : K) + (r : K) + 1)
  { width := w, height := h
    pix := fun idx =>
      let i := if horizontal then idx / w else idx % w
      let j := if horizontal then idx % w else idx / w
      let strip : ℕ → FilterPixel K :=
        fun t => if horizontal then img.pix (i * w + t) else img.pix (t * w + i)
      ⟨blurVal (fun t => (strip t).r) len r j * iarr,
       blurVal (fun t => (strip t).g) len r j * iarr,
       blurVal (fun t => (strip t).b) len r j * iarr,
       blurVal (fun t => (strip t).a) len r j * iarr⟩ }

/-- The three box-blur iterations of SVGFeGaussianBlurElement::render with
    the already-derived integer radii rx, ry.  The source derives each
    radius from stdDeviation as floor(sigma * 3 * sqrt(2 pi) / 4 + 0.5) / 2
    on floats; the radii enter the model as resolved inputs.  With both
    radii zero the passes are skipped and the result is a copy of the
    input, exactly as in the source. -/
def feGaussianBlurResult (input : FilterImage K) (rx ry : ℕ) : FilterImage K :=
  let step : FilterImage K → FilterImage K := fun img =>
    let img1 := if 0 < rx then boxBlurPass img rx true else img
    if 0 < ry then boxBlurPass img1 ry false else img1
  step (step (step input))

/-- SVGFeGaussianBlurElement::render: unresolved input leaves the context
    untouched; otherwise the blurred image is recorded. -/
def feGaussianBlurRender (ctx : FilterContext K) (inName resName : String)
    (rx ry : ℕ) : FilterContext K :=
  match ctx.getInput inName with
  | none => ctx
  | some input => ctx.addResult resName (feGaussianBlurResult input rx ry)

/-- Pixel plane of SVGFeOffsetElement::render: output (x, y) reads input
    (x - round dx, y - round dy) when in bounds, else stays transparent
    black from the zero-filled allocation. -/
def feOffsetResult (input : FilterImage K) (dx dy : K) : FilterImage K :=
  let w := input.width
  let h := input.height
  let ox := roundHalfAway dx
  let oy := roundHalfAway dy
  { width := w, height := h
    pix := fun idx =>
      let x : ℤ := (idx % w : ℕ)
      let y : ℤ := (idx / w : ℕ)
      let sx := x - ox
      let sy := y - oy
      if 0 ≤ sx ∧ sx < (w : ℤ) ∧ 0 ≤ sy ∧ sy < (h : ℤ) then
        input.pix ((sy * w + sx).toNat)
      else ⟨0, 0, 0, 0⟩ }

/-- SVGFeOffsetElement::render. -/
def feOffsetRender (ctx : FilterContext K) (inName resName : String)
    (dx dy : K) : FilterContext K :=
  match ctx.getInput inName with
  | none => ctx
  | some input => ctx.addResult resName (feOffsetResult input dx dy)

/-- Step 1 of SVGFeDropShadowElement::render (filterelement.cpp lines
    173-175): the shadow image.  L is the sRGB-to-linear transfer applied
    to the flood color components; cr, cg, cb are the color components in
    [0,1] and opacity is flood_opacity.  The color channels are the
    hoisted constants rr, rg, rb; only the alpha channel reads the input. -/
def dropShadowShadowImage (L : K → K) (input : FilterImage K)
    (cr cg cb opacity : K) : FilterImage K :=
  let ra := opacity
  let rr := L cr * ra
  let rg := L cg * ra
  let rb := L cb * ra
  { width := input.width, height := input.height
    pix := fun i => ⟨rr, rg, rb, (input.pix i).a * ra⟩ }

/-- Pixel plane of SVGFeDropShadowElement::render: build the shadow, blur
    it with the resolved radii, then offset it and composite the input
    over it with src-over. -/
def feDropShadowResult (L : K → K) (input : FilterImage K) (rx ry : ℕ)
    (dx dy : K) (cr cg cb opacity : K) : FilterImage K :=
  let shadow0 := dropShadowShadowImage L input cr cg cb opacity
  let step : FilterImage K → FilterImage K := fun img =>
    let img1 := if 0 < rx then boxBlurPass img rx true else img
    if 0 < ry then boxBlurPass img1 ry false else img1
  let shadow := step (step (step shadow0))
  let w := input.width
  let h := input.height
  let ox := roundHalfAway dx
  let oy := roundHalfAway dy
  { width := w, height := h
    pix := fun idx =>
      let x : ℤ := (idx % w : ℕ)
      let y : ℤ := (idx / w : ℕ)
      let sx := x - ox
      let sy := y - oy
      let s : FilterPixel K :=
        if 0 ≤ sx ∧ sx < (w : ℤ) ∧ 0 ≤ sy ∧ sy < (h : ℤ) then
          shadow.pix ((sy * w + sx).toNat)
        else ⟨0, 0, 0, 0⟩
      let g := input.pix idx
      ⟨g.r + s.r * (1 - g.a), g.g + s.g * (1 - g.a),
       g.b + s.b * (1 - g.a), g.a + s.a * (1 - g.a)⟩ }

/-- SVGFeDropShadowElement::render. -/
def feDropShadowRender (L : K → K) (ctx : FilterContext K)
    (inName resName : String) (rx ry : ℕ) (dx dy : K)
    (cr cg cb opacity : K) : FilterContext K :=
  match ctx.getInput inName with
  | none => ctx
  | some input =>
      ctx.addResult resName (feDropShadowResult L input rx ry dx dy cr cg cb opacity)

/-- The src-over blend of the merge loop body (filterelement.cpp line 216):
    d becomes s + d * (1 - s.a) on every channel including alpha. -/
def srcOverPixel (s d : FilterPixel K) : FilterPixel K :=
  ⟨s.r + d.r * (1 - s.a), s.g + d.g * (1 - s.a),
   s.b + d.b * (1 - s.a), s.a + d.a * (1 - s.a)⟩

/-- Whole-image src-over of input into the accumulator, as in the merge
    loop. -/
def srcOverImage (input acc : FilterImage K) : FilterImage K :=
  { width := acc.width, height := acc.height
    pix := fun i => srcOverPixel (input.pix i) (acc.pix i) }

/-- Body of the merge loop on whole images: a resolvable merge-node
    reference is blended src-over into the accumulator, an unresolved one
    is skipped. -/
def mergeStep (ctx : FilterContext K) (acc : FilterImage K)
    (name : String) : FilterImage K :=
  match ctx.getInput name with
  | none => acc
  | some input => srcOverImage input acc

/-- Body of the merge loop restricted to one pixel position. -/
def mergeStepPixel (ctx : FilterContext K) (i : ℕ) (p : FilterPixel K)
    (name : String) : FilterPixel K :=
  match ctx.getInput name with
  | none => p
  | some input => srcOverPixel (input.pix i) p

/-- Pixel plane of SVGFeMergeElement::render: starting from a zero image of
    the source-graphic dimensions, each resolvable merge-node reference is
    blended src-over into the accumulator in document order; unresolved
    references are skipped. -/
def feMergeResultImage (ctx : FilterContext K) (nodes : List String) :
    FilterImage K :=
  nodes.foldl (mergeStep ctx)
    (FilterImage.new K ctx.sourceGraphic.width ctx.sourceGraphic.height)

/-- The per-pixel left fold of the src-over operation over the merge-node
    references, starting from transparent black. -/
def mergeFoldPixel (ctx : FilterContext K) (nodes : List String)
    (i : ℕ) : FilterPixel K :=
  nodes.foldl (mergeStepPixel ctx i) ⟨0, 0, 0, 0⟩

/-- SVGFeMergeElement::render: always records its accumulator, even when no
    reference resolved. -/
def feMergeRender (ctx : FilterContext K) (nodes : List String)
    (resName : String) : FilterContext K :=
  ctx.addResult resName (feMergeResultImage ctx nodes)

/-- SVGFeFloodElement::render: a constant image of the source-graphic
    dimensions filled with the linearised premultiplied flood color. -/
def feFloodRender (L : K → K) (ctx : FilterContext K) (resName : String)
    (cr cg cb opacity : K) : FilterContext K :=
  let w := ctx.sourceGraphic.width
  let h := ctx.sourceGraphic.height
  let ra := opacity
  let rr := L cr * ra
  let rg := L cg * ra
  let rb := L cb * ra
  ctx.addResult resName
    { width := w, height := h, pix := fun _ => ⟨rr, rg, rb, ra⟩ }

/-- enum class FEBlendMode (filterelement.h); all five values are parsed
    from the mode attribute (property.cpp). -/
inductive FEBlendMode where
  | Normal
  | Multiply
  | Screen
  | Darken
  | Lighten
  deriving DecidableEq, Repr

/-- Pixel plane of SVGFeBlendElement::render (filterelement.cpp line 307).
    The loop body computes s + d * (1 - s.a) on every channel and never
    reads the mode member: the mode parameter is bound here exactly
    because the element carries it, and is unused exactly because the
    source never uses it. -/
def feBlendResult (mode : FEBlendMode) (i1 i2 : FilterImage K) :
    FilterImage K :=
  { width := i1.width, height := i1.height
    pix := fun i =>
      let s := i1.pix i
      let d := i2.pix i
      ⟨s.r + d.r * (1 - s.a), s.g + d.g * (1 - s.a),
       s.b + d.b * (1 - s.a), s.a + d.a * (1 - s.a)⟩ }

/-- SVGFeBlendElement::render: either input unresolved leaves the context
    untouched. -/
def feBlendRender (ctx : FilterContext K) (inName in2Name resName : String)
    (mode : FEBlendMode) : FilterContext K :=
  match ctx.getInput inName, ctx.getInput in2Name with
  | some i1, some i2 => ctx.addResult resName (feBlendResult mode i1 i2)
  | _, _ => ctx

/-- enum class FECompositeOperator (filterelement.h). -/
inductive FECompositeOperator where
  | Over
  | In
  | Out
  | Atop
  | Xor
  | Arithmetic
  deriving DecidableEq, Repr

/-- Loop body of SVGFeCompositeElement::render (filterelement.cpp lines
    231-253).  Arithmetic: clamp the alpha, unpremultiply with a zero
    guard, clamp each channel and repremultiply; a zero output alpha
    leaves the zero-initialised pixel.  Porter-Duff: out = s1 * fa +
    s2 * fb component-wise, with fa, fb from the switch. -/
def feCompositePixel (op : FECompositeOperator) (k1 k2 k3 k4 : K)
    (s1 s2 : FilterPixel K) : FilterPixel K :=
  if op = FECompositeOperator.Arithmetic then
    let na := clampVal (k1 * s1.a * s2.a + k2 * s1.a + k3 * s2.a + k4) 0 1
    if 0 < na then
      let c1r := if 0 < s1.a then s1.r / s1.a else 0
      let c1g := if 0 < s1.a then s1.g / s1.a else 0
      let c1b := if 0 < s1.a then s1.b / s1.a else 0
      let c2r := if 0 < s2.a then s2.r / s2.a else 0
      let c2g := if 0 < s2.a then s2.g / s2.a else 0
      let c2b := if 0 < s2.a then s2.b / s2.a else 0
      ⟨clampVal (k1 * c1r * c2r + k2 * c1r + k3 * c2r + k4) 0 1 * na,
       clampVal (k1 * c1g * c2g + k2 * c1g + k3 * c2g + k4) 0 1 * na,
       clampVal (k1 * c1b * c2b + k2 * c1b + k3 * c2b + k4) 0 1 * na, na⟩
    else ⟨0, 0, 0, 0⟩
  else
    let fa : K :=
      match op with
      | FECompositeOperator.Over => 1
      | FECompositeOperator.In => s2.a
      | FECompositeOperator.Out => 1 - s2.a
      | FECompositeOperator.Atop => s2.a
      | FECompositeOperator.Xor => 1 - s2.a
      | FECompositeOperator.Arithmetic => 0
    let fb : K :=
      match op with
      | FECompositeOperator.Over => 1 - s1.a
      | FECompositeOperator.In => 0
      | FECompositeOperator.Out => 0
      | FECompositeOperator.Atop => 1 - s1.a
      | FECompositeOperator.Xor => 1 - s1.a
      | FECompositeOperator.Arithmetic => 0
    ⟨s1.r * fa + s2.r * fb, s1.g * fa + s2.g * fb,
     s1.b * fa + s2.b * fb, s1.a * fa + s2.a * fb⟩

/-- Pixel plane of SVGFeCompositeElement::render. -/
def feCompositeResult (op : FECompositeOperator) (k1 k2 k3 k4 : K)
    (i1 i2 : FilterImage K) : FilterImage K :=
  { width := i1.width, height := i1.height
    pix := fun i => feCompositePixel op k1 k2 k3 k4 (i1.pix i) (i2.pix i) }

/-- SVGFeCompositeElement::render: either input unresolved leaves the
    context untouched. -/
def feCompositeRender (ctx : FilterContext K)
    (inName in2Name resName : String) (op : FECompositeOperator)
    (k1 k2 k3 k4 : K) : FilterContext K :=
  match ctx.getInput inName, ctx.getInput in2Name with
  | some i1, some i2 => ctx.addResult resName (feCompositeResult op k1 k2 k3 k4 i1 i2)
  | _, _ => ctx

/-- enum class ColorMatrixType (filterelement.h). -/
inductive ColorMatrixType where
  | Matrix
  | Saturate
  | HueRotate
  | LuminanceToAlpha
  deriving DecidableEq, Repr

/-- Pixel plane of SVGFeColorMatrixElement::render.  The 4x5 matrix is
    built from the type and value list as in the source; for HueRotate the
    source evaluates std::cos and std::sin of the angle, which enter the
    model as the resolved inputs cosTheta and sinTheta.  A pixel with
    non-positive alpha is skipped, leaving the zero-initialised output
    pixel. -/
def feColorMatrixResult (input : FilterImage K) (mtype : ColorMatrixType)
    (values : List K) (cosTheta sinTheta : K) : FilterImage K :=
  let m : List K :=
    match mtype with
    | ColorMatrixType.Matrix =>
        if values.length < 20 then List.replicate 20 0 else values
    | ColorMatrixType.Saturate =>
        let s := values.headD 1
        [213/1000 + 787/1000 * s, 715/1000 - 715/1000 * s, 72/1000 - 72/1000 * s, 0, 0,
         213/1000 - 213/1000 * s, 715/1000 + 285/1000 * s, 72/1000 - 72/1000 * s, 0, 0,
         213/1000 - 213/1000 * s, 715/1000 - 715/1000 * s, 72/1000 + 928/1000 * s, 0, 0,
         0, 0, 0, 1, 0]
    | ColorMatrixType.HueRotate =>
        [213/1000 + cosTheta * (787/1000) - sinTheta * (213/1000),
         715/1000 - cosTheta * (715/1000) - sinTheta * (715/1000),
         72/1000 - cosTheta * (72/1000) + sinTheta * (928/1000), 0, 0,
         213/1000 - cosTheta * (213/1000) + sinTheta * (143/1000),
         715/1000 + cosTheta * (285/1000) + sinTheta * (140/1000),
         72/1000 - cosTheta * (72/1000) - sinTheta * (283/1000), 0, 0,
         213/1000 - cosTheta * (213/1000) - sinTheta * (787/1000),
         715/1000 - cosTheta * (715/1000) + sinTheta * (715/1000),
         72/1000 + cosTheta * (928/1000) + sinTheta * (72/1000), 0, 0,
         0, 0, 0, 1, 0]
    | ColorMatrixType.LuminanceToAlpha =>
        [0, 0, 0, 0, 0, 0, 0, 0, 0, 0, 0, 0, 0, 0, 0,
         2125/10000, 7154/10000, 721/10000, 0, 0]
  if m.isEmpty then
    { width := input.width, height := input.height, pix := input.pix }
  else
    { width := input.width, height := input.height
      pix := fun i =>
        let s := input.pix i
        if s.a ≤ 0 then ⟨0, 0, 0, 0⟩
        else
          let r := s.r / s.a
          let g := s.g / s.a
          let b := s.b / s.a
          let nr := m.getD 0 0 * r + m.getD 1 0 * g + m.getD 2 0 * b
            + m.getD 3 0 * s.a + m.getD 4 0
          let ng := m.getD 5 0 * r + m.getD 6 0 * g + m.getD 7 0 * b
            + m.getD 8 0 * s.a + m.getD 9 0
          let nb := m.getD 10 0 * r + m.getD 11 0 * g + m.getD 12 0 * b
            + m.getD 13 0 * s.a + m.getD 14 0
          let na := clampVal (m.getD 15 0 * r + m.getD 16 0 * g
            + m.getD 17 0 * b + m.getD 18 0 * s.a + m.getD 19 0) 0 1
          ⟨nr * na, ng * na, nb * na, na⟩ }

/-- SVGFeColorMatrixElement::render. -/
def feColorMatrixRender (ctx : FilterContext K) (inName resName : String)
    (mtype : ColorMatrixType) (values : List K) (cosTheta sinTheta : K) :
    FilterContext K :=
  match ctx.getInput inName with
  | none => ctx
  | some input =>
      ctx.addResult resName (feColorMatrixResult input mtype values cosTheta sinTheta)

/-- One filter primitive with its already-resolved parameters, mirroring
    the SVGFe*Element classes. -/
inductive Primitive (K : Type) where
  | gaussianBlur (inName resName : String) (rx ry : ℕ)
  | offset (inName resName : String) (dx dy : K)
  | dropShadow (inName resName : String) (rx ry : ℕ) (dx dy : K)
      (cr cg cb opacity : K)
  | merge (nodes : List String) (resName : String)
  | flood (resName : String) (cr cg cb opacity : K)
  | blend (inName in2Name resName : String) (mode : FEBlendMode)
  | composite (inName in2Name resName : String) (op : FECompositeOperator)
      (k1 k2 k3 k4 : K)
  | colorMatrix (inName resName : String) (mtype : ColorMatrixType)
      (values : List K) (cosTheta sinTheta : K)

/-- Dispatch of SVGFilterPrimitiveElement::render over the primitive kind. -/
def renderPrimitive (L : K → K) (ctx : FilterContext K) :
    Primitive K → FilterContext K
  | Primitive.gaussianBlur inName resName rx ry =>
      feGaussianBlurRender ctx inName resName rx ry
  | Primitive.offset inName resName dx dy =>
      feOffsetRender ctx inName resName dx dy
  | Primitive.dropShadow inName resName rx ry dx dy cr cg cb opacity =>
      feDropShadowRender L ctx inName resName rx ry dx dy cr cg cb opacity
  | Primitive.merge nodes resName => feMergeRender ctx nodes resName
  | Primitive.flood resName cr cg cb opacity =>
      feFloodRender L ctx resName cr cg cb opacity
  | Primitive.blend inName in2Name resName mode =>
      feBlendRender ctx inName in2Name resName mode
  | Primitive.composite inName in2Name resName op k1 k2 k3 k4 =>
      feCompositeRender ctx inName in2Name resName op k1 k2 k3 k4
  | Primitive.colorMatrix inName resName mtype values cosTheta sinTheta =>
      feColorMatrixRender ctx inName resName mtype values cosTheta sinTheta

/-- The loop of SVGFilterElement::applyFilter: render every primitive in
    document order on the evolving context. -/
def evalPrimitives (L : K → K) (prims : List (Primitive K))
    (ctx : FilterContext K) : FilterContext K :=
  prims.foldl (fun c p => renderPrimitive L c p) ctx

/-- Premultiplication well-formedness of a pixel: alpha in [0,1] and every
    channel in [0, alpha]. -/
def wellFormedPixel (p : FilterPixel K) : Prop :=
  0 ≤ p.a ∧ p.a ≤ 1 ∧ 0 ≤ p.r ∧ p.r ≤ p.a ∧ 0 ≤ p.g ∧ p.g ≤ p.a
    ∧ 0 ≤ p.b ∧ p.b ≤ p.a

instance (p : FilterPixel K) : Decidable (wellFormedPixel p) := by
  unfold wellFormedPixel; infer_instance

/-- The per-pixel blend of section 4.4 of the specification, stated from
    the words of the spec for comparison with feBlendResult: unpremultiply
    with a divide-by-zero guard, apply the mode blend function B, then
    recombine as B * s.a * d.a + s * (1 - d.a) + d * (1 - s.a), with
    alpha s.a + d.a - s.a * d.a; Normal is plain src-over. -/
def specBlendB (mode : FEBlendMode) : K → K → K :=
  match mode with
  | FEBlendMode.Multiply => fun x y => x * y
  | FEBlendMode.Screen => fun x y => x + y - x * y
  | FEBlendMode.Darken => fun x y => min x y
  | FEBlendMode.Lighten => fun x y => max x y
  | FEBlendMode.Normal => fun _ _ => 0

/-- Recombination of the non-Normal modes as the spec words it. -/
def specBlendPixel (mode : FEBlendMode) (s d : FilterPixel K) :
    FilterPixel K :=
  if mode = FEBlendMode.Normal then
    ⟨s.r + d.r * (1 - s.a), s.g + d.g * (1 - s.a),
     s.b + d.b * (1 - s.a), s.a + d.a * (1 - s.a)⟩
  else
    let sp : K → K := fun c => if s.a = 0 then 0 else c / s.a
    let dp : K → K := fun c => if d.a = 0 then 0 else c / d.a
    let mix : K → K → K := fun sc dc =>
      specBlendB mode (sp sc) (dp dc) * s.a * d.a
        + sc * (1 - d.a) + dc * (1 - s.a)
    ⟨mix s.r d.r, mix s.g d.g, mix s.b d.b,
     s.a + d.a - s.a * d.a⟩

/-- Dimensional conservation invariant of a filter context: every image in
    the result table and the last result agree with the source graphic in
    width and height. -/
def dimsOk (ctx : FilterContext K) : Prop :=
  (∀ n img, ctx.results n = some img →
      img.width = ctx.sourceGraphic.width ∧ img.height = ctx.sourceGraphic.height)
  ∧ ctx.lastResult.width = ctx.sourceGraphic.width
  ∧ ctx.lastResult.height = ctx.sourceGraphic.height

end Field

/-- A one-pixel opaque mid-gray image used as a concrete input. -/
def grayImg : FilterImage ℚ :=
  { width := 1, height := 1, pix := fun _ => ⟨1/2, 1/2, 1/2, 1⟩ }

/-- A one-pixel well-formed premultiplied image used as a concrete input. -/
def wfImg : FilterImage ℚ :=
  { width := 1, height := 1, pix := fun _ => ⟨1/4, 1/8, 0, 1/2⟩ }

/-- A one-pixel opaque white image used as a concrete second input. -/
def whiteImg : FilterImage ℚ :=
  { width := 1, height := 1, pix := fun _ => ⟨1, 1, 1, 1⟩ }

/-- A two-pixel image with distinct pixels used to exercise the offset. -/
def twoPixImg : FilterImage ℚ :=
  { width := 2, height := 1
    pix := fun i => if i = 0 then ⟨1, 0, 0, 1⟩ else ⟨0, 1, 0, 1⟩ }

/-- A fully transparent one-pixel image used as a drop-shadow input. -/
def transparentImg : FilterImage ℝ :=
  { width := 1, height := 1, pix := fun _ => ⟨0, 0, 0, 0⟩ }

/-- A concrete seeded context over a one-pixel source. -/
def exCtx : FilterContext ℚ := initFilterContext grayImg

/-- toLinear (filterelement.cpp line 16): the sRGB-to-linear transfer,
    c / 12.92 below the knee and ((c + 0.055) / 1.055) ^ 2.4 above it.
    The float computation is modelled by exact real arithmetic. -/
noncomputable def toLinear (c : ℝ) : ℝ :=
  if c ≤ 0.04045 then c / 12.92 else ((c + 0.055) / 1.055) ^ (2.4 : ℝ)

/-- toSRGB (filterelement.cpp line 20): the linear-to-sRGB transfer,
    c * 12.92 below the knee and 1.055 * c ^ (1 / 2.4) - 0.055 above it. -/
noncomputable def toSRGB (c : ℝ) : ℝ :=
  if c ≤ 0.0031308 then c * 12.92 else 1.055 * c ^ ((1 : ℝ) / 2.4) - 0.055

/-- toByte (filterelement.cpp line 24): clamp to [0,1], scale by 255 and
    round; std::round rounds half away from zero, which on the
    non-negative clamped range is floor(x + 1/2). -/
noncomputable def toByte (v : ℝ) : ℕ :=
  (⌊clampVal v 0 1 * 255 + 1 / 2⌋).toNat

/-- One pixel of the external 8-bit raster in its memory order B, G, R, A. -/
structure BytePixel where
  b : ℕ
  g : ℕ
  r : ℕ
  a : ℕ
  deriving DecidableEq, Repr

/-- The external 8-bit premultiplied sRGB raster, row-major. -/
structure ByteImage where
  width : ℕ
  height : ℕ
  pix : ℕ → BytePixel

/-- Per-pixel body of FilterImage::fromCanvas (filterelement.cpp lines
    42-48): with a = A / 255, a transparent pixel stays the zero fill;
    otherwise each channel is unpremultiplied, linearised and
    repremultiplied. -/
noncomputable def fromCanvasPixel (p : BytePixel) : FilterPixel ℝ :=
  let a : ℝ := (p.a : ℝ) / 255
  if 0 < a then
    ⟨toLinear (((p.r : ℝ) / 255) / a) * a,
     toLinear (((p.g : ℝ) / 255) / a) * a,
     toLinear (((p.b : ℝ) / 255) / a) * a, a⟩
  else ⟨0, 0, 0, 0⟩

/-- Per-pixel body of FilterImage::toCanvas (filterelement.cpp lines
    63-72): clamp alpha, emit four zero bytes when it is at most 1e-4,
    otherwise unpremultiply, clamp, gamma-encode, repremultiply and
    quantise each channel. -/
noncomputable def toCanvasPixel (q : FilterPixel ℝ) : BytePixel :=
  let a := clampVal q.a 0 1
  if 0.0001 < a then
    ⟨toByte (toSRGB (clampVal (q.b / a) 0 1) * a),
     toByte (toSRGB (clampVal (q.g / a) 0 1) * a),
     toByte (toSRGB (clampVal (q.r / a) 0 1) * a),
     toByte a⟩
  else ⟨0, 0, 0, 0⟩

/-- FilterImage::fromCanvas over the whole raster. -/
noncomputable def FilterImage.fromCanvas (img : ByteImage) : FilterImage ℝ :=
  { width := img.width, height := img.height
    pix := fun i => fromCanvasPixel (img.pix i) }

/-- FilterImage::toCanvas over the whole plane; the canvas extents only
    position the output surface and do not affect the pixel bytes. -/
noncomputable def FilterImage.toCanvas (img : FilterImage ℝ) : ByteImage :=
  { width := img.width, height := img.height
    pix := fun i => toCanvasPixel (img.pix i) }

/-- SVGFilterElement::applyFilter at the raster level: convert the source,
    seed the context, render every primitive in order, convert the last
    result back to bytes. -/
noncomputable def applyFilterBytes (prims : List (Primitive ℝ))
    (src : ByteImage) : ByteImage :=
  FilterImage.toCanvas
    ((evalPrimitives toLinear prims
        (initFilterContext (FilterImage.fromCanvas src))).lastResult)

/-- A one-pixel opaque byte raster used as a concrete raster input. -/
def exByteImg : ByteImage :=
  { width := 1, height := 1, pix := fun _ => ⟨3, 200, 17, 255⟩ }

/-- A one-pixel byte raster with zero alpha. -/
def exByteImg0 : ByteImage :=
  { width := 1, height := 1, pix := fun _ => ⟨9, 8, 7, 0⟩ }

theorem clampVal_of_mem {K : Type} [LinearOrder K] {v lo hi : K}
    (h1 : lo ≤ v) (h2 : v ≤ hi) : clampVal v lo hi = v := by
  unfold clampVal
  rw [if_neg (not_lt.mpr h1), if_neg (not_lt.mpr h2)]

theorem toLinear_nonneg {c : ℝ} (hc : 0 ≤ c) : 0 ≤ toLinear c := by
  unfold toLinear
  split
  · exact div_nonneg hc (by norm_num)
  · exact Real.rpow_nonneg (div_nonneg (by linarith) (by norm_num)) _

theorem toLinear_le_one {c : ℝ} (hc0 : 0 ≤ c) (hc1 : c ≤ 1) : toLinear c ≤ 1 := by
  unfold toLinear
  split
  · rw [div_le_one (by norm_num)]; linarith
  · exact Real.rpow_le_one (div_nonneg (by linarith) (by norm_num))
      (by rw [div_le_one (by norm_num)]; linarith) (by norm_num)

/-- On every byte value the two transfer curves are exact inverses: the
    knee points 0.04045 and 0.0031308 select matching branches for every
    c = k / 255, and the gamma exponents 2.4 and 1 / 2.4 cancel. -/
theorem toSRGB_toLinear_byte (k : ℕ) (hk : k ≤ 255) :
    toSRGB (toLinear ((k : ℝ) / 255)) = (k : ℝ) / 255 := by
  by_cases hk10 : k ≤ 10
  · have hkr : (k : ℝ) ≤ 10 := by exact_mod_cast hk10
    have hc : ((k : ℝ) / 255) ≤ 0.04045 := by
      have h1 : ((k : ℝ) / 255) ≤ 10 / 255 := by gcongr
      have h2 : (10 : ℝ) / 255 ≤ 0.04045 := by norm_num
      linarith
    unfold toLinear
    rw [if_pos hc]
    have hlow : (k : ℝ) / 255 / 12.92 ≤ 0.0031308 := by
      have h1 : (k : ℝ) / 255 / 12.92 ≤ 10 / 255 / 12.92 := by gcongr
      have h2 : (10 : ℝ) / 255 / 12.92 ≤ 0.0031308 := by norm_num
      linarith
    unfold toSRGB
    rw [if_pos hlow, div_mul_cancel₀ _ (by norm_num : (12.92:ℝ) ≠ 0)]
  · push_neg at hk10
    have hkr : (11 : ℝ) ≤ (k : ℝ) := by exact_mod_cast hk10
    have hc : ¬ ((k : ℝ) / 255 ≤ 0.04045) := by
      push_neg
      have h1 : (0.04045 : ℝ) < 11 / 255 := by norm_num
      have h2 : (11 : ℝ) / 255 ≤ (k : ℝ) / 255 := by gcongr
      linarith
    have hk255 : (k : ℝ) ≤ 255 := by exact_mod_cast hk
    unfold toLinear
    rw [if_neg hc]
    have hbnn : (0:ℝ) ≤ ((k : ℝ) / 255 + 0.055) / 1.055 :=
      div_nonneg (by positivity) (by norm_num)
    have hbge : (1001/10761 : ℝ) ≤ ((k : ℝ) / 255 + 0.055) / 1.055 := by
      have h2 : (11 : ℝ) / 255 ≤ (k : ℝ) / 255 := by gcongr
      have h4 : ((11:ℝ)/255 + 0.055) / 1.055 ≤ ((k : ℝ) / 255 + 0.055) / 1.055 := by
        gcongr
      have h3 : ((11:ℝ)/255 + 0.055) / 1.055 = 1001/10761 := by norm_num
      linarith
    have hb11 : (0.0031308 : ℝ) < (1001/10761 : ℝ) ^ (2.4:ℝ) := by
      have h5 : ((1001/10761 : ℝ) ^ (2.4:ℝ)) ^ (5:ℕ) = (1001/10761 : ℝ) ^ (12:ℕ) := by
        rw [← Real.rpow_natCast ((1001/10761 : ℝ) ^ (2.4:ℝ)) 5,
          ← Real.rpow_mul (by norm_num),
          show (2.4 : ℝ) * ((5:ℕ):ℝ) = ((12:ℕ):ℝ) by norm_num, Real.rpow_natCast]
      have hlt : (0.0031308 : ℝ)^(5:ℕ) < ((1001/10761 : ℝ) ^ (2.4:ℝ))^(5:ℕ) := by
        rw [h5]; norm_num
      exact lt_of_pow_lt_pow_left₀ 5 (Real.rpow_nonneg (by norm_num) _) hlt
    have hygt : (0.0031308 : ℝ) < (((k : ℝ) / 255 + 0.055) / 1.055) ^ (2.4:ℝ) :=
      lt_of_lt_of_le hb11 (Real.rpow_le_rpow (by norm_num) hbge (by norm_num))
    unfold toSRGB
    rw [if_neg (not_le.mpr hygt), ← Real.rpow_mul hbnn,
      show (2.4 : ℝ) * (1/2.4) = 1 by norm_num, Real.rpow_one]
    field_simp
    ring

theorem toByte_byte (k : ℕ) (hk : k ≤ 255) : toByte ((k : ℝ) / 255) = k := by
  have h0 : (0:ℝ) ≤ (k : ℝ) / 255 := by positivity
  have h1 : ((k : ℝ) / 255) ≤ 1 := by
    rw [div_le_one (by norm_num)]; exact_mod_cast hk
  unfold toByte
  rw [clampVal_of_mem h0 h1, div_mul_cancel₀ _ (by norm_num : (255:ℝ) ≠ 0)]
  have hfl : ⌊(k : ℝ) + 1/2⌋ = (k : ℤ) := by
    rw [Int.floor_eq_iff]
    constructor
    · push_cast; linarith
    · push_cast; linarith
  rw [hfl, Int.toNat_natCast]

/-- An opaque byte pixel converts to linear and back without any change:
    in exact arithmetic the round trip is lossless. -/
theorem roundTrip_opaque (p : BytePixel) (ha : p.a = 255) (hr : p.r ≤ 255)
    (hg : p.g ≤ 255) (hb : p.b ≤ 255) :
    toCanvasPixel (fromCanvasPixel p) = p := by
  obtain ⟨pb, pg, pr, pa⟩ := p
  simp only at ha hr hg hb
  subst ha
  have chan : ∀ k : ℕ, k ≤ 255 →
      toByte (toSRGB (clampVal (toLinear ((k:ℝ) / 255 / 1) * 1 / 1) 0 1) * 1) = k := by
    intro k hk
    have h0 : (0:ℝ) ≤ (k : ℝ) / 255 := by positivity
    have h1 : ((k : ℝ) / 255) ≤ 1 := by
      rw [div_le_one (by norm_num)]; exact_mod_cast hk
    rw [div_one, mul_one, div_one, mul_one,
      clampVal_of_mem (toLinear_nonneg h0) (toLinear_le_one h0 h1),
      toSRGB_toLinear_byte k hk, toByte_byte k hk]
  have ha1 : ((255:ℕ) : ℝ) / 255 = 1 := by norm_num
  simp only [fromCanvasPixel, ha1]
  rw [if_pos (by norm_num : (0:ℝ) < 1)]
  simp only [toCanvasPixel, clampVal_of_mem (by norm_num : (0:ℝ) ≤ 1) (le_refl (1:ℝ))]
  rw [if_pos (by norm_num : (0.0001 : ℝ) < 1)]
  simp only [BytePixel.mk.injEq]
  refine ⟨chan pb hb, chan pg hg, chan pr hr, ?_⟩
  unfold toByte
  rw [clampVal_of_mem (by norm_num : (0:ℝ) ≤ 1) (le_refl (1:ℝ))]
  norm_num
  rfl

/-- A byte pixel with zero alpha converts to the zero linear pixel and back
    to four zero bytes. -/
theorem roundTrip_transparent (p : BytePixel) (ha : p.a = 0) :
    toCanvasPixel (fromCanvasPixel p) = ⟨0, 0, 0, 0⟩ := by
  simp only [fromCanvasPixel, ha]
  rw [if_neg (by norm_num)]
  simp only [toCanvasPixel]
  rw [clampVal_of_mem (le_refl (0:ℝ)) (by norm_num : (0:ℝ) ≤ 1)]
  rw [if_neg (by norm_num)]

/-- C4: on a raster whose pixels are in range, applying a filter with an
    empty primitive list preserves the dimensions, reproduces every
    channel byte of every fully opaque pixel within one LSB (in the exact
    arithmetic model the round trip is in fact lossless), and maps every
    pixel with alpha byte 0 to exactly four zero bytes. -/
theorem emptyFilter_roundTrip (img : ByteImage) :
    (applyFilterBytes [] img).width = img.width
    ∧ (applyFilterBytes [] img).height = img.height
    ∧ (∀ i, (img.pix i).a = 255 → (img.pix i).r ≤ 255 → (img.pix i).g ≤ 255 →
        (img.pix i).b ≤ 255 →
        Int.natAbs ((((applyFilterBytes [] img).pix i).b : ℤ) - ((img.pix i).b : ℤ)) ≤ 1
        ∧ Int.natAbs ((((applyFilterBytes [] img).pix i).g : ℤ) - ((img.pix i).g : ℤ)) ≤ 1
        ∧ Int.natAbs ((((applyFilterBytes [] img).pix i).r : ℤ) - ((img.pix i).r : ℤ)) ≤ 1
        ∧ Int.natAbs ((((applyFilterBytes [] img).pix i).a : ℤ) - ((img.pix i).a : ℤ)) ≤ 1)
    ∧ (∀ i, (img.pix i).a = 0 → (applyFilterBytes [] img).pix i = ⟨0, 0, 0, 0⟩) := by
  have hpix : ∀ i, (applyFilterBytes [] img).pix i =
      toCanvasPixel (fromCanvasPixel (img.pix i)) := fun i => rfl
  refine ⟨rfl, rfl, ?_, ?_⟩
  · intro i ha hr hg hb
    rw [hpix i, roundTrip_opaque _ ha hr hg hb]
    refine ⟨?_, ?_, ?_, ?_⟩ <;> simp
  · intro i ha
    rw [hpix i, roundTrip_transparent _ ha]

theorem emptyFilter_roundTrip_witness :
    (Int.natAbs ((((applyFilterBytes [] exByteImg).pix 0).b : ℤ) - ((exByteImg.pix 0).b : ℤ)) ≤ 1
      ∧ Int.natAbs ((((applyFilterBytes [] exByteImg).pix 0).g : ℤ) - ((exByteImg.pix 0).g : ℤ)) ≤ 1
      ∧ Int.natAbs ((((applyFilterBytes [] exByteImg).pix 0).r : ℤ) - ((exByteImg.pix 0).r : ℤ)) ≤ 1
      ∧ Int.natAbs ((((applyFilterBytes [] exByteImg).pix 0).a : ℤ) - ((exByteImg.pix 0).a : ℤ)) ≤ 1)
    ∧ (applyFilterBytes [] exByteImg0).pix 0 = ⟨0, 0, 0, 0⟩ :=
  ⟨(emptyFilter_roundTrip exByteImg).2.2.1 0 rfl (by decide) (by decide) (by decide),
   (emptyFilter_roundTrip exByteImg0).2.2.2 0 rfl⟩

/-- C1: the render of feBlend in the source applies the plain src-over
    formula to every pixel whatever the mode is, although the mode
    attribute is parsed into all five values: at an opaque mid-gray pixel
    pair the Multiply output equals the Normal output and differs from the
    Multiply blend recombination of the specification, which gives 1/4
    instead of 1/2 per channel. -/
theorem blend_mode_ignored :
    (feBlendResult FEBlendMode.Multiply grayImg grayImg).pix 0 =
      (feBlendResult FEBlendMode.Normal grayImg grayImg).pix 0
    ∧ (feBlendResult FEBlendMode.Multiply grayImg grayImg).pix 0 ≠
        specBlendPixel FEBlendMode.Multiply (grayImg.pix 0) (grayImg.pix 0) := by
  refine ⟨rfl, ?_⟩
  intro h
  have hr := congrArg FilterPixel.r h
  simp only [feBlendResult, specBlendPixel, specBlendB, grayImg] at hr
  rw [if_neg (by decide : ¬ (FEBlendMode.Multiply = FEBlendMode.Normal))] at hr
  norm_num at hr

/-- C2 counterexample: at a transparent input pixel the shadow images red
    channel is toLinear(10/255) * flood_opacity, which is positive, while
    the formula of the claim, toLinear(red) times the per-pixel shadow
    alpha, is zero there. -/
theorem dropShadow_shadow_claim_false :
    ((dropShadowShadowImage toLinear transparentImg (10/255) (10/255) (10/255) 1).pix 0).r ≠
      toLinear (10/255) *
        ((dropShadowShadowImage toLinear transparentImg (10/255) (10/255) (10/255) 1).pix 0).a := by
  have hpos : 0 < toLinear (10/255 : ℝ) := by
    unfold toLinear
    rw [if_pos (by norm_num)]
    norm_num
  intro h
  simp only [dropShadowShadowImage, transparentImg, mul_one, zero_mul, mul_zero] at h
  exact absurd h (ne_of_gt hpos)

/-- C2 amended: the step-1 shadow image has per-pixel alpha input.a times
    flood_opacity, while its color channels are the linearised flood color
    times flood_opacity only — the same constant at every pixel, not
    scaled by the per-pixel alpha. -/
theorem dropShadow_shadow_image_channels (input : FilterImage ℝ)
    (cr cg cb opacity : ℝ) (i : ℕ) :
    (dropShadowShadowImage toLinear input cr cg cb opacity).pix i =
      ⟨toLinear cr * opacity, toLinear cg * opacity, toLinear cb * opacity,
        (input.pix i).a * opacity⟩ := rfl

/-- C3: with a non-empty input name that is absent from the result table,
    each input-resolving primitive — GaussianBlur, Offset, DropShadow,
    Blend and Composite on either input, ColorMatrix — leaves the whole
    context unchanged, last result and result table included, and raises
    nothing; an empty input name resolves to the last result. -/
theorem unknown_input_no_output (ctx : FilterContext ℚ) (L : ℚ → ℚ)
    (name res in2 other : String) (rx ry : ℕ) (dx dy : ℚ)
    (mode : FEBlendMode) (op : FECompositeOperator)
    (k1 k2 k3 k4 cr cg cb opacity cosT sinT : ℚ)
    (mtype : ColorMatrixType) (values : List ℚ)
    (hname : name ≠ "") (hmiss : ctx.results name = none) :
    feGaussianBlurRender ctx name res rx ry = ctx
    ∧ feOffsetRender ctx name res dx dy = ctx
    ∧ feDropShadowRender L ctx name res rx ry dx dy cr cg cb opacity = ctx
    ∧ feBlendRender ctx name in2 res mode = ctx
    ∧ feBlendRender ctx other name res mode = ctx
    ∧ feCompositeRender ctx name in2 res op k1 k2 k3 k4 = ctx
    ∧ feCompositeRender ctx other name res op k1 k2 k3 k4 = ctx
    ∧ feColorMatrixRender ctx name res mtype values cosT sinT = ctx
    ∧ ctx.getInput "" = some ctx.lastResult := by
  have hnone : ctx.getInput name = none := by
    unfold FilterContext.getInput
    rw [if_neg hname, hmiss]
  refine ⟨?_, ?_, ?_, ?_, ?_, ?_, ?_, ?_, ?_⟩
  · unfold feGaussianBlurRender; rw [hnone]
  · unfold feOffsetRender; rw [hnone]
  · unfold feDropShadowRender; rw [hnone]
  · unfold feBlendRender; rw [hnone]
  · unfold feBlendRender; rw [hnone]; cases ctx.getInput other <;> rfl
  · unfold feCompositeRender; rw [hnone]
  · unfold feCompositeRender; rw [hnone]; cases ctx.getInput other <;> rfl
  · unfold feColorMatrixRender; rw [hnone]
  · unfold FilterContext.getInput; rw [if_pos rfl]

theorem unknown_input_no_output_witness :
    feGaussianBlurRender exCtx "nope" "out" 1 1 = exCtx
    ∧ feOffsetRender exCtx "nope" "out" 1 1 = exCtx
    ∧ feDropShadowRender (fun c => c) exCtx "nope" "out" 1 1 1 1 1 1 1 1 = exCtx
    ∧ feBlendRender exCtx "nope" "" "out" FEBlendMode.Normal = exCtx
    ∧ feBlendRender exCtx "" "nope" "out" FEBlendMode.Normal = exCtx
    ∧ feCompositeRender exCtx "nope" "" "out" FECompositeOperator.Over 0 0 0 0 = exCtx
    ∧ feCompositeRender exCtx "" "nope" "out" FECompositeOperator.Over 0 0 0 0 = exCtx
    ∧ feColorMatrixRender exCtx "nope" "out" ColorMatrixType.Matrix [] 1 0 = exCtx
    ∧ exCtx.getInput "" = some exCtx.lastResult :=
  unknown_input_no_output exCtx (fun c => c) "nope" "out" "" "" 1 1 1 1
    FEBlendMode.Normal FECompositeOperator.Over 0 0 0 0 1 1 1 1 1 0
    ColorMatrixType.Matrix [] (by decide) rfl

theorem arithmetic_identity_pixel (s1 s2 : FilterPixel ℚ)
    (h : wellFormedPixel s1) :
    feCompositePixel FECompositeOperator.Arithmetic 0 1 0 0 s1 s2 = s1 := by
  obtain ⟨r, g, b, a⟩ := s1
  obtain ⟨ha0, ha1, hr0, hr1, hg0, hg1, hb0, hb1⟩ := h
  simp only at ha0 ha1 hr0 hr1 hg0 hg1 hb0 hb1
  unfold feCompositePixel
  rw [if_pos rfl]
  dsimp only
  have hna : clampVal ((0:ℚ) * a * s2.a + 1 * a + 0 * s2.a + 0) 0 1 = a := by
    rw [show (0:ℚ) * a * s2.a + 1 * a + 0 * s2.a + 0 = a by ring,
      clampVal_of_mem ha0 ha1]
  rw [hna]
  by_cases hpos : 0 < a
  · rw [if_pos hpos]
    simp only [if_pos hpos]
    have e : ∀ x c : ℚ, (0:ℚ) * x * c + 1 * x + 0 * c + 0 = x := by
      intro x c; ring
    simp only [e]
    have hc : ∀ x : ℚ, 0 ≤ x → x ≤ a → clampVal (x / a) 0 1 * a = x := by
      intro x hx0 hx1
      rw [clampVal_of_mem (div_nonneg hx0 (le_of_lt hpos))
        ((div_le_one hpos).mpr hx1), div_mul_cancel₀ _ (ne_of_gt hpos)]
    simp only [FilterPixel.mk.injEq]
    exact ⟨hc r hr0 hr1, hc g hg0 hg1, hc b hb0 hb1, trivial⟩
  · rw [if_neg hpos]
    have ha : a = 0 := le_antisymm (not_lt.mp hpos) ha0
    subst ha
    simp only [FilterPixel.mk.injEq]
    exact ⟨(le_antisymm hr1 hr0).symm, (le_antisymm hg1 hg0).symm,
      (le_antisymm hb1 hb0).symm, trivial⟩

/-- C5: Composite with the Arithmetic operator and k1 = 0, k2 = 1, k3 = 0,
    k4 = 0 reproduces a well-formed first input pixel-for-pixel,
    whatever the second input is. -/
theorem composite_arithmetic_identity (A B : FilterImage ℚ)
    (hA : ∀ i, wellFormedPixel (A.pix i)) :
    (feCompositeResult FECompositeOperator.Arithmetic 0 1 0 0 A B).width = A.width
    ∧ (feCompositeResult FECompositeOperator.Arithmetic 0 1 0 0 A B).height = A.height
    ∧ ∀ i, (feCompositeResult FECompositeOperator.Arithmetic 0 1 0 0 A B).pix i
        = A.pix i := by
  exact ⟨rfl, rfl, fun i => arithmetic_identity_pixel (A.pix i) (B.pix i) (hA i)⟩

theorem composite_arithmetic_identity_witness :
    (feCompositeResult FECompositeOperator.Arithmetic 0 1 0 0 wfImg whiteImg).pix 0
      = wfImg.pix 0 :=
  (composite_arithmetic_identity wfImg whiteImg
    (fun i => by unfold wfImg wellFormedPixel; norm_num)).2.2 0

/-- C6: for each Porter-Duff operator the composite output pixel is
    s * fa + d * fb component-wise on r, g, b and a with (fa, fb) being
    (1, 1 - s.a) for Over, (d.a, 0) for In, (1 - d.a, 0) for Out,
    (d.a, 1 - s.a) for Atop and (1 - d.a, 1 - s.a) for Xor, for any k
    parameters. -/
theorem composite_porter_duff (s d : FilterPixel ℚ) (k1 k2 k3 k4 : ℚ) :
    feCompositePixel FECompositeOperator.Over k1 k2 k3 k4 s d =
      ⟨s.r * 1 + d.r * (1 - s.a), s.g * 1 + d.g * (1 - s.a),
       s.b * 1 + d.b * (1 - s.a), s.a * 1 + d.a * (1 - s.a)⟩
    ∧ feCompositePixel FECompositeOperator.In k1 k2 k3 k4 s d =
      ⟨s.r * d.a + d.r * 0, s.g * d.a + d.g * 0,
       s.b * d.a + d.b * 0, s.a * d.a + d.a * 0⟩
    ∧ feCompositePixel FECompositeOperator.Out k1 k2 k3 k4 s d =
      ⟨s.r * (1 - d.a) + d.r * 0, s.g * (1 - d.a) + d.g * 0,
       s.b * (1 - d.a) + d.b * 0, s.a * (1 - d.a) + d.a * 0⟩
    ∧ feCompositePixel FECompositeOperator.Atop k1 k2 k3 k4 s d =
      ⟨s.r * d.a + d.r * (1 - s.a), s.g * d.a + d.g * (1 - s.a),
       s.b * d.a + d.b * (1 - s.a), s.a * d.a + d.a * (1 - s.a)⟩
    ∧ feCompositePixel FECompositeOperator.Xor k1 k2 k3 k4 s d =
      ⟨s.r * (1 - d.a) + d.r * (1 - s.a), s.g * (1 - d.a) + d.g * (1 - s.a),
       s.b * (1 - d.a) + d.b * (1 - s.a), s.a * (1 - d.a) + d.a * (1 - s.a)⟩ :=
  ⟨rfl, rfl, rfl, rfl, rfl⟩

/-- C10: addResult with a non-empty name binds that name to the new image,
    replacing any earlier binding including the seeded ones, and advances
    the last result, so that any later lookup of the name reads the newer
    image; with an empty name only the last result changes and the table
    is untouched. -/
theorem addResult_replaces (ctx : FilterContext ℚ) (n : String)
    (img img2 : FilterImage ℚ) (hn : n ≠ "") :
    (ctx.addResult n img).getInput n = some img
    ∧ (ctx.addResult n img).lastResult = img
    ∧ (ctx.addResult "" img2).lastResult = img2
    ∧ (ctx.addResult "" img2).results = ctx.results := by
  refine ⟨?_, rfl, rfl, rfl⟩
  unfold FilterContext.addResult FilterContext.getInput
  dsimp only
  rw [if_neg hn, if_neg hn, if_pos rfl]

theorem addResult_replaces_witness :
    (exCtx.addResult "x" grayImg).getInput "x" = some grayImg
    ∧ (exCtx.addResult "x" grayImg).lastResult = grayImg
    ∧ (exCtx.addResult "" wfImg).lastResult = wfImg
    ∧ (exCtx.addResult "" wfImg).results = exCtx.results :=
  addResult_replaces exCtx "x" grayImg wfImg (by decide)

theorem merge_fold_pix (ctx : FilterContext ℚ) (nodes : List String) :
    ∀ (acc : FilterImage ℚ) (i : ℕ),
      (nodes.foldl (mergeStep ctx) acc).pix i
        = nodes.foldl (mergeStepPixel ctx i) (acc.pix i) := by
  induction nodes with
  | nil => intro acc i; rfl
  | cons hd tl ih =>
      intro acc i
      cases h : ctx.getInput hd with
      | none =>
          simp only [List.foldl_cons, mergeStep, mergeStepPixel, h]
          exact ih acc i
      | some v =>
          simp only [List.foldl_cons, mergeStep, mergeStepPixel, h]
          exact ih (srcOverImage v acc) i

/-- C8: the merge output is the left fold of premultiplied src-over over
    the merge-node references in document order, starting from transparent
    black at the source-graphic dimensions; unresolved references
    contribute nothing, the result always becomes the last result, and a
    singleton merge of a well-formed resolvable input reproduces it
    pixel-for-pixel. -/
theorem merge_is_srcOver_fold (ctx : FilterContext ℚ) (nodes : List String)
    (res : String) :
    (feMergeRender ctx nodes res).lastResult = feMergeResultImage ctx nodes
    ∧ (∀ i, (feMergeResultImage ctx nodes).pix i = mergeFoldPixel ctx nodes i)
    ∧ (∀ n A, ctx.getInput n = some A → (∀ i, wellFormedPixel (A.pix i)) →
        ∀ i, (feMergeResultImage ctx [n]).pix i = A.pix i) := by
  refine ⟨rfl, ?_, ?_⟩
  · intro i
    unfold feMergeResultImage mergeFoldPixel
    exact merge_fold_pix ctx nodes
      (FilterImage.new ℚ ctx.sourceGraphic.width ctx.sourceGraphic.height) i
  · intro n A h hwf i
    unfold feMergeResultImage
    simp only [List.foldl_cons, List.foldl_nil, mergeStep, h]
    show srcOverPixel (A.pix i) ((FilterImage.new ℚ _ _).pix i) = A.pix i
    unfold srcOverPixel FilterImage.new
    simp

theorem merge_is_srcOver_fold_witness :
    (feMergeResultImage exCtx ["SourceGraphic"]).pix 0 = grayImg.pix 0 :=
  (merge_is_srcOver_fold exCtx ["SourceGraphic"] "").2.2 "SourceGraphic"
    grayImg rfl (fun i => by unfold grayImg wellFormedPixel; norm_num) 0

/-- C9: the offset output pixel at (x, y) is the input pixel at
    (x - round dx, y - round dy) when that coordinate is in bounds and
    transparent black otherwise, and offset by (0, 0) is the identity. -/
theorem offset_pixel_rule (input : FilterImage ℚ) (dx dy : ℚ) (x y : ℕ)
    (hx : x < input.width) (hy : y < input.height) :
    ((feOffsetResult input dx dy).pix (y * input.width + x) =
      if 0 ≤ (x:ℤ) - roundHalfAway dx
          ∧ (x:ℤ) - roundHalfAway dx < (input.width : ℤ)
          ∧ 0 ≤ (y:ℤ) - roundHalfAway dy
          ∧ (y:ℤ) - roundHalfAway dy < (input.height : ℤ) then
        input.pix ((((y:ℤ) - roundHalfAway dy) * input.width
          + ((x:ℤ) - roundHalfAway dx)).toNat)
      else ⟨0, 0, 0, 0⟩)
    ∧ (feOffsetResult input 0 0).pix (y * input.width + x)
        = input.pix (y * input.width + x) := by
  have hw : 0 < input.width := lt_of_le_of_lt (Nat.zero_le x) hx
  have hmod : (y * input.width + x) % input.width = x := by
    rw [Nat.mul_comm y input.width, Nat.mul_add_mod, Nat.mod_eq_of_lt hx]
  have hdiv : (y * input.width + x) / input.width = y := by
    rw [Nat.add_comm, Nat.add_mul_div_right _ _ hw, Nat.div_eq_of_lt hx,
      Nat.zero_add]
  have hr0 : roundHalfAway (0 : ℚ) = 0 := by
    unfold roundHalfAway
    rw [if_pos le_rfl]
    rw [show (0:ℚ) + 1/2 = 1/2 by norm_num, Int.floor_eq_zero_iff.mpr]
    rw [Set.mem_Ico]
    constructor <;> norm_num
  constructor
  · unfold feOffsetResult
    dsimp only
    rw [hmod, hdiv]
  · unfold feOffsetResult
    dsimp only
    rw [hmod, hdiv, hr0]
    rw [if_pos ?side]
    case side =>
      refine ⟨by omega, ?_, by omega, ?_⟩
      · omega
      · omega
    have hidx : (((y:ℤ) - 0) * input.width + ((x:ℤ) - 0))
        = ((y * input.width + x : ℕ) : ℤ) := by push_cast; ring
    rw [hidx, Int.toNat_natCast]

theorem offset_pixel_rule_witness :
    (feOffsetResult twoPixImg 0 0).pix 1 = twoPixImg.pix 1 := by
  have h := (offset_pixel_rule twoPixImg 0 0 1 0 (by decide) (by decide)).2
  simpa using h

set_option linter.unusedSectionVars false

section DimLemmas

variable {K : Type} [LinearOrderedField K] [FloorRing K]

theorem boxBlurPass_width (img : FilterImage K) (r : ℕ) (hor : Bool) :
    (boxBlurPass img r hor).width = img.width := by
  unfold boxBlurPass
  split <;> rfl

theorem boxBlurPass_height (img : FilterImage K) (r : ℕ) (hor : Bool) :
    (boxBlurPass img r hor).height = img.height := by
  unfold boxBlurPass
  split <;> rfl

theorem feGaussianBlurResult_width (input : FilterImage K) (rx ry : ℕ) :
    (feGaussianBlurResult input rx ry).width = input.width := by
  unfold feGaussianBlurResult
  dsimp only
  split_ifs <;> simp [boxBlurPass_width]

theorem feGaussianBlurResult_height (input : FilterImage K) (rx ry : ℕ) :
    (feGaussianBlurResult input rx ry).height = input.height := by
  unfold feGaussianBlurResult
  dsimp only
  split_ifs <;> simp [boxBlurPass_height]

theorem mergeFold_width (ctx : FilterContext K) (nodes : List String) :
    ∀ acc : FilterImage K, (nodes.foldl (mergeStep ctx) acc).width = acc.width := by
  induction nodes with
  | nil => intro acc; rfl
  | cons hd tl ih =>
      intro acc
      cases h : ctx.getInput hd with
      | none => simp only [List.foldl_cons, mergeStep, h]; exact ih acc
      | some v => simp only [List.foldl_cons, mergeStep, h]; exact ih (srcOverImage v acc)

theorem mergeFold_height (ctx : FilterContext K) (nodes : List String) :
    ∀ acc : FilterImage K, (nodes.foldl (mergeStep ctx) acc).height = acc.height := by
  induction nodes with
  | nil => intro acc; rfl
  | cons hd tl ih =>
      intro acc
      cases h : ctx.getInput hd with
      | none => simp only [List.foldl_cons, mergeStep, h]; exact ih acc
      | some v => simp only [List.foldl_cons, mergeStep, h]; exact ih (srcOverImage v acc)

theorem feColorMatrixResult_width (input : FilterImage K)
    (mtype : ColorMatrixType) (values : List K) (ct st : K) :
    (feColorMatrixResult input mtype values ct st).width = input.width := by
  unfold feColorMatrixResult
  dsimp only
  rw [apply_ite FilterImage.width]
  dsimp only
  rw [ite_self]

theorem feColorMatrixResult_height (input : FilterImage K)
    (mtype : ColorMatrixType) (values : List K) (ct st : K) :
    (feColorMatrixResult input mtype values ct st).height = input.height := by
  unfold feColorMatrixResult
  dsimp only
  rw [apply_ite FilterImage.height]
  dsimp only
  rw [ite_self]

theorem getInput_dims {ctx : FilterContext K} (hctx : dimsOk ctx)
    {n : String} {img : FilterImage K} (h : ctx.getInput n = some img) :
    img.width = ctx.sourceGraphic.width
      ∧ img.height = ctx.sourceGraphic.height := by
  unfold FilterContext.getInput at h
  by_cases hn : n = ""
  · rw [if_pos hn] at h
    injection h with h1
    rw [← h1]
    exact ⟨hctx.2.1, hctx.2.2⟩
  · rw [if_neg hn] at h
    exact hctx.1 n img h

theorem addResult_dimsOk {ctx : FilterContext K} (hctx : dimsOk ctx)
    {img : FilterImage K} (hw : img.width = ctx.sourceGraphic.width)
    (hh : img.height = ctx.sourceGraphic.height) (n : String) :
    dimsOk (ctx.addResult n img) := by
  unfold dimsOk FilterContext.addResult
  dsimp only
  refine ⟨?_, hw, hh⟩
  intro n0 img0 h0
  by_cases hn : n = ""
  · rw [if_pos hn] at h0
    exact hctx.1 n0 img0 h0
  · rw [if_neg hn] at h0
    by_cases hn0 : n0 = n
    · rw [if_pos hn0] at h0
      injection h0 with h1
      rw [← h1]
      exact ⟨hw, hh⟩
    · rw [if_neg hn0] at h0
      exact hctx.1 n0 img0 h0

theorem feMergeResultImage_width (ctx : FilterContext K)
    (nodes : List String) :
    (feMergeResultImage ctx nodes).width = ctx.sourceGraphic.width := by
  unfold feMergeResultImage
  rw [mergeFold_width]
  rfl

theorem feMergeResultImage_height (ctx : FilterContext K)
    (nodes : List String) :
    (feMergeResultImage ctx nodes).height = ctx.sourceGraphic.height := by
  unfold feMergeResultImage
  rw [mergeFold_height]
  rfl

theorem renderPrimitive_dimsOk (L : K → K) (ctx : FilterContext K)
    (p : Primitive K) (hctx : dimsOk ctx) :
    dimsOk (renderPrimitive L ctx p)
      ∧ (renderPrimitive L ctx p).sourceGraphic = ctx.sourceGraphic := by
  cases p with
  | gaussianBlur inName resName rx ry =>
      unfold renderPrimitive feGaussianBlurRender
      dsimp only
      cases h : ctx.getInput inName with
      | none => exact ⟨hctx, rfl⟩
      | some input =>
          obtain ⟨hw, hh⟩ := getInput_dims hctx h
          exact ⟨addResult_dimsOk hctx
            ((feGaussianBlurResult_width input rx ry).trans hw)
            ((feGaussianBlurResult_height input rx ry).trans hh) resName, rfl⟩
  | offset inName resName dx dy =>
      unfold renderPrimitive feOffsetRender
      dsimp only
      cases h : ctx.getInput inName with
      | none => exact ⟨hctx, rfl⟩
      | some input =>
          obtain ⟨hw, hh⟩ := getInput_dims hctx h
          exact ⟨addResult_dimsOk hctx
            ((show (feOffsetResult input dx dy).width = input.width from rfl).trans hw)
            ((show (feOffsetResult input dx dy).height = input.height from rfl).trans hh)
            resName, rfl⟩
  | dropShadow inName resName rx ry dx dy cr cg cb opacity =>
      unfold renderPrimitive feDropShadowRender
      dsimp only
      cases h : ctx.getInput inName with
      | none => exact ⟨hctx, rfl⟩
      | some input =>
          obtain ⟨hw, hh⟩ := getInput_dims hctx h
          exact ⟨addResult_dimsOk hctx
            ((show (feDropShadowResult L input rx ry dx dy cr cg cb opacity).width
                = input.width from rfl).trans hw)
            ((show (feDropShadowResult L input rx ry dx dy cr cg cb opacity).height
                = input.height from rfl).trans hh) resName, rfl⟩
  | merge nodes resName =>
      unfold renderPrimitive feMergeRender
      dsimp only
      exact ⟨addResult_dimsOk hctx (feMergeResultImage_width ctx nodes)
        (feMergeResultImage_height ctx nodes) resName, rfl⟩
  | flood resName cr cg cb opacity =>
      unfold renderPrimitive feFloodRender
      dsimp only
      refine ⟨addResult_dimsOk hctx ?_ ?_ resName, rfl⟩ <;> rfl
  | blend inName in2Name resName mode =>
      unfold renderPrimitive feBlendRender
      dsimp only
      cases h1 : ctx.getInput inName with
      | none => exact ⟨hctx, rfl⟩
      | some i1 =>
          cases h2 : ctx.getInput in2Name with
          | none => exact ⟨hctx, rfl⟩
          | some i2 =>
              obtain ⟨hw, hh⟩ := getInput_dims hctx h1
              exact ⟨addResult_dimsOk hctx
                ((show (feBlendResult mode i1 i2).width = i1.width from rfl).trans hw)
                ((show (feBlendResult mode i1 i2).height = i1.height from rfl).trans hh)
                resName, rfl⟩
  | composite inName in2Name resName op k1 k2 k3 k4 =>
      unfold renderPrimitive feCompositeRender
      dsimp only
      cases h1 : ctx.getInput inName with
      | none => exact ⟨hctx, rfl⟩
      | some i1 =>
          cases h2 : ctx.getInput in2Name with
          | none => exact ⟨hctx, rfl⟩
          | some i2 =>
              obtain ⟨hw, hh⟩ := getInput_dims hctx h1
              exact ⟨addResult_dimsOk hctx
                ((show (feCompositeResult op k1 k2 k3 k4 i1 i2).width = i1.width
                    from rfl).trans hw)
                ((show (feCompositeResult op k1 k2 k3 k4 i1 i2).height = i1.height
                    from rfl).trans hh) resName, rfl⟩
  | colorMatrix inName resName mtype values ct st =>
      unfold renderPrimitive feColorMatrixRender
      dsimp only
      cases h : ctx.getInput inName with
      | none => exact ⟨hctx, rfl⟩
      | some input =>
          obtain ⟨hw, hh⟩ := getInput_dims hctx h
          exact ⟨addResult_dimsOk hctx
            ((feColorMatrixResult_width input mtype values ct st).trans hw)
            ((feColorMatrixResult_height input mtype values ct st).trans hh)
            resName, rfl⟩

theorem evalPrimitives_dimsOk (L : K → K) (prims : List (Primitive K)) :
    ∀ ctx : FilterContext K, dimsOk ctx →
      dimsOk (evalPrimitives L prims ctx)
        ∧ (evalPrimitives L prims ctx).sourceGraphic = ctx.sourceGraphic := by
  induction prims with
  | nil => intro ctx h; exact ⟨h, rfl⟩
  | cons p tl ih =>
      intro ctx h
      unfold evalPrimitives at ih ⊢
      simp only [List.foldl_cons]
      obtain ⟨h1, h2⟩ := renderPrimitive_dimsOk L ctx p h
      obtain ⟨h3, h4⟩ := ih (renderPrimitive L ctx p) h1
      exact ⟨h3, h4.trans h2⟩

theorem initFilterContext_dimsOk (src : FilterImage K) :
    dimsOk (initFilterContext src) := by
  unfold dimsOk initFilterContext
  dsimp only
  refine ⟨?_, rfl, rfl⟩
  intro n img h
  by_cases h1 : n = "SourceGraphic"
  · rw [if_pos h1] at h
    injection h with h2
    rw [← h2]
    exact ⟨rfl, rfl⟩
  · rw [if_neg h1] at h
    by_cases h2 : n = "SourceAlpha"
    · rw [if_pos h2] at h
      injection h with h3
      rw [← h3]
      exact ⟨rfl, rfl⟩
    · rw [if_neg h2] at h
      cases h

end DimLemmas

/-- C7: starting from a context seeded with SourceGraphic and SourceAlpha,
    after any sequence of primitive renders every image in the result
    table and the last result have the same width and height as the
    source graphic, which itself is preserved by evaluation. -/
theorem dims_conservation (L : ℚ → ℚ) (src : FilterImage ℚ)
    (prims : List (Primitive ℚ)) :
    dimsOk (evalPrimitives L prims (initFilterContext src))
    ∧ (evalPrimitives L prims (initFilterContext src)).sourceGraphic = src :=
  evalPrimitives_dimsOk L prims (initFilterContext src)
    (initFilterContext_dimsOk src)

end LunaSVG
